import Mathlib

/-
Shallow embedding of the jaxon-strategy-feed repository (two python scripts:
generate-feed.py and sync-audio-to-drive.py), together with theorems settling
the frozen claims about it.  External effects (ffprobe, the Drive API, the
filesystem) are modelled as oracle parameters; pure logic is translated
directly from the source.
-/

namespace StrategyFeed

/-! ### Decimal rendering (python str / percent-02d formatting) -/

/-- Decimal digit characters of a natural number, most significant first.
The first argument is fuel, always called with enough of it, so that the
definition is structural and reduces by rfl. -/
def natDigitsAux : Nat → Nat → List Char
  | 0, _ => []
  | fuel + 1, n =>
    if n < 10 then [Nat.digitChar n]
    else natDigitsAux fuel (n / 10) ++ [Nat.digitChar (n % 10)]

/-- Decimal rendering of a natural number, as python's str(n). -/
def numStr (n : Nat) : String := ⟨natDigitsAux (n + 1) n⟩

/-- Zero-pad to width at least two, as python's percent-02d format:
numbers below 10 get a leading zero, larger numbers are never truncated. -/
def pad2 (n : Nat) : String := if n < 10 then "0" ++ numStr n else numStr n

/-- Boolean prefix test on character lists. -/
def isPrefixChars : List Char → List Char → Bool
  | [], _ => true
  | _ :: _, [] => false
  | a :: as, b :: bs => a = b && isPrefixChars as bs

/-- Boolean contiguous-occurrence test: does sub occur inside l. -/
def hasInfixChars : List Char → List Char → Bool
  | [], sub => isPrefixChars sub []
  | a :: t, sub => isPrefixChars sub (a :: t) || hasInfixChars t sub

/-- Python's substring containment test (the `in` operator on strings). -/
def containsSub (s sub : String) : Bool := hasInfixChars s.data sub.data

/-- Python's str.endswith. -/
def endswithPy (s suffix : String) : Bool := suffix.data.isSuffixOf s.data

/-! ### Calendar conversion (datetime.fromtimestamp / strftime)

generate-feed.py line 121 formats the file modification time with
strftime('%a, %d %b %Y %H:%M:%S %z') on a naive local datetime.  We model
the epoch-seconds-to-civil-date conversion with the standard proleptic
Gregorian algorithm; the local timezone enters as an offset in seconds east
of UTC added to the epoch instant. -/

/-- Civil date-time fields plus weekday (0 = Monday .. 6 = Sunday). -/
structure CivilDateTime where
  year : Nat
  month : Nat
  day : Nat
  hour : Nat
  minute : Nat
  second : Nat
  weekday : Nat
deriving DecidableEq, Repr

/-- Gregorian civil date (year, month, day) from days since 1970-01-01. -/
def civilFromDays (days : Nat) : Nat × Nat × Nat :=
  let z := days + 719468
  let era := z / 146097
  let doe := z % 146097
  let yoe := (doe - doe / 1460 + doe / 36524 - doe / 146096) / 365
  let y := yoe + era * 400
  let doy := doe - (365 * yoe + yoe / 4 - yoe / 100)
  let mp := (5 * doy + 2) / 153
  let d := doy - (153 * mp + 2) / 5 + 1
  let m := if mp < 10 then mp + 3 else mp - 9
  (if m ≤ 2 then y + 1 else y, m, d)

/-- Full civil date-time from epoch seconds. -/
def toCivil (t : Nat) : CivilDateTime :=
  let days := t / 86400
  let secs := t % 86400
  let ymd := civilFromDays days
  { year := ymd.1, month := ymd.2.1, day := ymd.2.2,
    hour := secs / 3600, minute := secs % 3600 / 60, second := secs % 60,
    weekday := (days + 3) % 7 }

/-- Abbreviated weekday name, as strftime's percent-a in the C locale. -/
def weekdayName : Nat → String
  | 0 => "Mon"
  | 1 => "Tue"
  | 2 => "Wed"
  | 3 => "Thu"
  | 4 => "Fri"
  | 5 => "Sat"
  | _ => "Sun"

/-- Abbreviated month name, as strftime's percent-b in the C locale. -/
def monthName : Nat → String
  | 1 => "Jan"
  | 2 => "Feb"
  | 3 => "Mar"
  | 4 => "Apr"
  | 5 => "May"
  | 6 => "Jun"
  | 7 => "Jul"
  | 8 => "Aug"
  | 9 => "Sep"
  | 10 => "Oct"
  | 11 => "Nov"
  | _ => "Dec"

/-- strftime('%a, %d %b %Y %H:%M:%S %z') on a NAIVE datetime: the %z field
renders as the empty string, leaving a trailing space after the seconds. -/
def strftimeFeed (c : CivilDateTime) : String :=
  weekdayName c.weekday ++ ", " ++ pad2 c.day ++ " " ++ monthName c.month ++ " " ++
    numStr c.year ++ " " ++ pad2 c.hour ++ ":" ++ pad2 c.minute ++ ":" ++ pad2 c.second ++ " "

/-- generate-feed.py lines 120-123: format the modification time as a local
naive datetime, then append ' +0000' when the string does not already end
with it.  tzOffset is the local timezone's offset east of UTC in seconds. -/
def pub_date (tzOffset mtime : Nat) : String :=
  let s := strftimeFeed (toCivil (mtime + tzOffset))
  if endswithPy s " +0000" then s else s ++ " +0000"

/-- The publication string claim C2 describes, following the spec's words:
the modification instant expressed in UTC, carrying a +0000 offset, in the
same textual shape the script produces. -/
def utcPubDate (mtime : Nat) : String := strftimeFeed (toCivil mtime) ++ " +0000"

/-! ### The drive-urls.json mapping (python dict, string keys to string values)

Python dicts are modelled as association lists with update-in-place-or-append
insertion, which is exactly the observable key/value behaviour of dict
assignment; json.load/json.dump round-trip the object unchanged, so the
persisted mapping is the association list itself. -/

/-- A JSON-object mapping from filenames to URLs. -/
abbrev UrlMap := List (String × String)

/-- Dictionary lookup (python d[k] / the `in` test via isSome). -/
def dictLookup : UrlMap → String → Option String
  | [], _ => none
  | (k, v) :: rest, key => if k = key then some v else dictLookup rest key

/-- Python's `key in dict` membership test. -/
def dictContains (d : UrlMap) (k : String) : Bool := (dictLookup d k).isSome

/-- Python's d[k] = v: overwrite the existing entry in place, else append. -/
def dictInsert : UrlMap → String → String → UrlMap
  | [], k, v => [(k, v)]
  | (k', v') :: rest, k, v =>
    if k' = k then (k, v) :: rest else (k', v') :: dictInsert rest k v

/-! ### generate-feed.py -/

/-- The fixed GitHub Pages base URL (generate-feed.py line 22). -/
def GITHUB_BASE_URL : String := "https://jaxondigital.github.io/jaxon-strategy-feed/audio"

/-- generate-feed.py lines 57-63: mapped URL when the filename is a key of
the mapping, else the GitHub Pages fallback joined with one slash. -/
def get_audio_url (filename : String) (drive_urls : UrlMap) : String :=
  match dictLookup drive_urls filename with
  | some url => url
  | none => GITHUB_BASE_URL ++ "/" ++ filename

/-- The format/tags object ffprobe reports for one file.  The duration is
the already-floored whole-second value of the container duration. -/
structure ProbeFormat where
  tags : List (String × String)
  duration : Nat
  size : Nat
deriving DecidableEq

/-- Python's tags.get(key, default). -/
def tagGet : List (String × String) → String → String → String
  | [], _, dflt => dflt
  | (k, v) :: rest, key, dflt => if k = key then v else tagGet rest key dflt

/-- pathlib's Path(name).stem: the name with its final dot-suffix removed
(a dot-suffix consisting of the whole name does not count). -/
def stem (name : String) : String :=
  let r := name.data.reverse
  match r.dropWhile (fun c => c ≠ '.') with
  | [] => name
  | _ :: rest => if rest.isEmpty then name else ⟨rest.reverse⟩

/-- The metadata record built by get_mp3_metadata (lines 38-45). -/
structure Metadata where
  title : String
  artist : String
  album : String
  comment : String
  duration : Nat
  size : Nat
deriving DecidableEq

/-- generate-feed.py lines 24-48.  The probe oracle models running ffprobe
and parsing its JSON standard output; none models any failure inside the
try block (nonzero exit, malformed JSON), which the except clause turns
into a logged message and a None return instead of an exception. -/
def get_mp3_metadata (probe : String → Option ProbeFormat) (path : String) : Option Metadata :=
  match probe path with
  | none => none
  | some fmt =>
    some { title := tagGet fmt.tags "title" (stem path),
           artist := tagGet fmt.tags "artist" "Jaxon Digital",
           album := tagGet fmt.tags "album" "Project Pivot Strategy",
           comment := tagGet fmt.tags "comment" "",
           duration := fmt.duration,
           size := fmt.size }

/-- A file of the audio directory: its name and its modification time. -/
structure FileInfo where
  name : String
  mtime : Nat
deriving DecidableEq

/-- The per-episode record of generate-feed.py lines 125-134. -/
structure Episode where
  filename : String
  title : String
  artist : String
  description : String
  audio_url : String
  pub_date : String
  duration : Nat
  size : Nat
deriving DecidableEq

/-- The loop body of generate-feed.py lines 106-134 for one file: skip
temp/chunk names, skip files whose metadata probe failed, otherwise build
the episode record. -/
def episodeOf (probe : String → Option ProbeFormat) (drive_urls : UrlMap)
    (tzOffset : Nat) (f : FileInfo) : Option Episode :=
  if containsSub f.name ".temp." || containsSub f.name ".chunk" then none
  else
    match get_mp3_metadata probe f.name with
    | none => none
    | some md =>
      some { filename := f.name,
             title := md.title,
             artist := md.artist,
             description := if md.comment = "" then "Strategy document - " ++ md.title else md.comment,
             audio_url := get_audio_url f.name drive_urls,
             pub_date := StrategyFeed.pub_date tzOffset f.mtime,
             duration := md.duration,
             size := md.size }

/-- The unsorted episode list accumulated by the loop. -/
def buildEpisodes (probe : String → Option ProbeFormat) (drive_urls : UrlMap)
    (tzOffset : Nat) (files : List FileInfo) : List Episode :=
  files.filterMap (episodeOf probe drive_urls tzOffset)

/-- Python's `<` on strings: lexicographic comparison by code point. -/
def ltChars : List Char → List Char → Bool
  | [], [] => false
  | [], _ :: _ => true
  | _ :: _, [] => false
  | a :: as, b :: bs =>
    if a.val < b.val then true else if b.val < a.val then false else ltChars as bs

/-- Python's `<` on strings. -/
def ltStr (a b : String) : Bool := ltChars a.data b.data

/-- Stable descending insertion by a string key: the new element goes after
every earlier element whose key is not strictly smaller. -/
def insertDescBy (key : α → String) (a : α) : List α → List α
  | [] => [a]
  | b :: bs => if ltStr (key b) (key a) then a :: b :: bs else b :: insertDescBy key a bs

/-- Stable descending sort by a string key.  Python's list.sort with a key
and reverse=True is a stable sort, and a stable sort with respect to a total
preorder has a unique result, so this insertion sort computes exactly the
list the source produces. -/
def sortByKeyDesc (key : α → String) (l : List α) : List α :=
  l.foldl (fun acc a => insertDescBy key a acc) []

/-- generate-feed.py lines 100-137: build all episodes, then sort by the
pub_date STRING, descending (line 137 passes the formatted string as key). -/
def generate_rss_items (probe : String → Option ProbeFormat) (drive_urls : UrlMap)
    (tzOffset : Nat) (files : List FileInfo) : List Episode :=
  sortByKeyDesc (fun e => e.pub_date) (buildEpisodes probe drive_urls tzOffset files)

/-- The HH:MM:SS rendering of lines 154-157. -/
def duration_str (d : Nat) : String :=
  pad2 (d / 3600) ++ ":" ++ pad2 (d % 3600 / 60) ++ ":" ++ pad2 (d % 60)

/-- Lines 153-158: the itunes duration element is emitted only when the
duration is positive; none models the absent element. -/
def durationElement (d : Nat) : Option String :=
  if 0 < d then some (duration_str d) else none

/-! ### sync-audio-to-drive.py -/

/-- Direct-download link built from a Drive file id (lines 64 and 103). -/
def downloadLink (fid : String) : String :=
  "https://drive.google.com/uc?export=download&id=" ++ fid

/-- State threaded through the sync loop: the mapping being built, the
files uploaded this run, and the file ids granted public-read permission. -/
structure SyncState where
  drive_urls : UrlMap
  uploaded : List String
  granted : List String
deriving DecidableEq

/-- sync-audio-to-drive.py lines 138-154, one file.  existing is the remote
listing (filename to direct-download link, as built by list_drive_files);
createFile models the Drive create call of upload_file_to_drive and returns
the new file id, with none modelling an exception inside the try block,
which the except clause catches so that nothing is recorded. -/
def syncStep (existing : UrlMap) (createFile : String → Option String)
    (st : SyncState) (filename : String) : SyncState :=
  match dictLookup existing filename with
  | some url => { st with drive_urls := dictInsert st.drive_urls filename url }
  | none =>
    if dictContains st.drive_urls filename then st
    else
      match createFile filename with
      | some fid =>
        { drive_urls := dictInsert st.drive_urls filename (downloadLink fid),
          uploaded := st.uploaded ++ [filename],
          granted := st.granted ++ [fid] }
      | none => st

/-- The whole sync loop over the local file list. -/
def syncRun (existing : UrlMap) (createFile : String → Option String)
    (st : SyncState) (files : List String) : SyncState :=
  files.foldl (syncStep existing createFile) st

/-- Lines 129-132: the temp/chunk exclusion applied to local filenames. -/
def localFilterNames (files : List String) : List String :=
  files.filter (fun n => !containsSub n ".temp." && !containsSub n ".chunk")

/-- main of sync-audio-to-drive.py, lines 121-158: start from the loaded
mapping (or empty), process every non-excluded local file, ending in the
state whose drive_urls is written back to drive-urls.json. -/
def sync_main (existing : UrlMap) (createFile : String → Option String)
    (m0 : UrlMap) (files : List String) : SyncState :=
  syncRun existing createFile { drive_urls := m0, uploaded := [], granted := [] } (localFilterNames files)

/-! ### Helper lemmas -/

theorem dictLookup_insert_self (d : UrlMap) (k v : String) :
    dictLookup (dictInsert d k v) k = some v := by
  induction d with
  | nil => simp [dictInsert, dictLookup]
  | cons p rest ih =>
    obtain ⟨k', v'⟩ := p
    by_cases h : k' = k
    · subst h; simp [dictInsert, dictLookup]
    · simp [dictInsert, dictLookup, h, ih]

theorem dictLookup_insert_ne (d : UrlMap) (k v k' : String) (h : k' ≠ k) :
    dictLookup (dictInsert d k v) k' = dictLookup d k' := by
  have hne : ¬ k = k' := fun hh => h hh.symm
  induction d with
  | nil => simp [dictInsert, dictLookup, hne]
  | cons p rest ih =>
    obtain ⟨a, b⟩ := p
    by_cases ha : a = k
    · subst ha
      simp [dictInsert, dictLookup, hne]
    · simp [dictInsert, dictLookup, ha, ih]

theorem dictContains_lookup_none (d : UrlMap) (k : String)
    (h : dictContains d k = false) : dictLookup d k = none := by
  unfold dictContains at h
  exact Option.not_isSome_iff_eq_none.mp (by simp [h])

theorem endswithPy_append_space (s : String) :
    endswithPy (s ++ " ") " +0000" = false := by
  unfold endswithPy
  rw [String.data_append]
  by_contra hne
  rw [Bool.not_eq_false, List.isSuffixOf_iff_suffix] at hne
  obtain ⟨t, ht⟩ := hne
  have hd6 : (" +0000" : String).data = [' ', '+', '0', '0', '0'] ++ ['0'] := rfl
  have hd1 : (" " : String).data = [' '] := rfl
  rw [hd6, hd1] at ht
  have h1 : (t ++ ([' ', '+', '0', '0', '0'] ++ ['0'])).getLast? = some '0' := by
    rw [← List.append_assoc]; exact List.getLast?_concat _
  have h2 : (s.data ++ [' ']).getLast? = some ' ' := List.getLast?_concat _
  rw [ht, h2] at h1
  exact absurd (Option.some.inj h1) (by decide)

theorem strftimeFeed_not_plus0000 (c : CivilDateTime) :
    endswithPy (strftimeFeed c) " +0000" = false := by
  unfold strftimeFeed
  exact endswithPy_append_space _

theorem pub_date_eq (tzOffset mtime : Nat) :
    pub_date tzOffset mtime = strftimeFeed (toCivil (mtime + tzOffset)) ++ " +0000" := by
  unfold pub_date
  simp [strftimeFeed_not_plus0000]

theorem natDigitsAux_length_pos (fuel n : Nat) (h : 1 ≤ fuel) :
    1 ≤ (natDigitsAux fuel n).length := by
  obtain ⟨f, rfl⟩ : ∃ f, fuel = f + 1 := ⟨fuel - 1, by omega⟩
  unfold natDigitsAux
  by_cases hn : n < 10 <;> simp [hn]

theorem natDigitsAux_length_two (fuel n : Nat) (hf : 2 ≤ fuel) (hn : 10 ≤ n) :
    2 ≤ (natDigitsAux fuel n).length := by
  obtain ⟨f, rfl⟩ : ∃ f, fuel = f + 1 := ⟨fuel - 1, by omega⟩
  unfold natDigitsAux
  have hn' : ¬ n < 10 := by omega
  simp only [hn', if_false, List.length_append, List.length_cons, List.length_nil]
  have := natDigitsAux_length_pos f (n / 10) (by omega)
  omega

theorem natDigitsAux_length_three (fuel n : Nat) (hf : 3 ≤ fuel) (hn : 100 ≤ n) :
    3 ≤ (natDigitsAux fuel n).length := by
  obtain ⟨f, rfl⟩ : ∃ f, fuel = f + 1 := ⟨fuel - 1, by omega⟩
  unfold natDigitsAux
  have hn' : ¬ n < 10 := by omega
  simp only [hn', if_false, List.length_append, List.length_cons, List.length_nil]
  have := natDigitsAux_length_two f (n / 10) (by omega) (by omega)
  omega

theorem numStr_length_eq (n : Nat) : (numStr n).length = (natDigitsAux (n + 1) n).length := rfl

theorem pad2_length_two (n : Nat) : 2 ≤ (pad2 n).length := by
  unfold pad2
  by_cases h : n < 10
  · simp only [h, if_true]
    rw [String.length_append, numStr_length_eq]
    have := natDigitsAux_length_pos (n + 1) n (by omega)
    have h1 : ("0" : String).length = 1 := rfl
    omega
  · simp only [h, if_false]
    rw [numStr_length_eq]
    exact natDigitsAux_length_two (n + 1) n (by omega) (by omega)

theorem pad2_length_three (n : Nat) (h : 100 ≤ n) : 3 ≤ (pad2 n).length := by
  unfold pad2
  have h' : ¬ n < 10 := by omega
  simp only [h', if_false]
  rw [numStr_length_eq]
  exact natDigitsAux_length_three (n + 1) n (by omega) h

theorem mem_insertDescBy {α : Type} (key : α → String) (a x : α) (l : List α) :
    x ∈ insertDescBy key a l ↔ x = a ∨ x ∈ l := by
  induction l with
  | nil => simp [insertDescBy]
  | cons b bs ih =>
    unfold insertDescBy
    by_cases h : ltStr (key b) (key a) = true
    · simp only [h, if_true, List.mem_cons]
    · rw [Bool.not_eq_true] at h
      simp only [h, Bool.false_eq_true, if_false, List.mem_cons, ih]
      tauto

theorem mem_sortByKeyDesc {α : Type} (key : α → String) (l : List α) (x : α) :
    x ∈ sortByKeyDesc key l ↔ x ∈ l := by
  suffices h : ∀ acc : List α,
      x ∈ l.foldl (fun acc a => insertDescBy key a acc) acc ↔ x ∈ acc ∨ x ∈ l by
    simpa [sortByKeyDesc] using h []
  induction l with
  | nil => intro acc; simp
  | cons b bs ih =>
    intro acc
    rw [List.foldl_cons, ih, mem_insertDescBy]
    simp only [List.mem_cons]
    tauto

theorem episodeOf_some (probe : String → Option ProbeFormat) (drive_urls : UrlMap)
    (tzOffset : Nat) (f : FileInfo) (e : Episode)
    (h : episodeOf probe drive_urls tzOffset f = some e) :
    e.filename = f.name ∧ containsSub f.name ".temp." = false ∧
      containsSub f.name ".chunk" = false := by
  unfold episodeOf at h
  by_cases hg : (containsSub f.name ".temp." || containsSub f.name ".chunk") = true
  · simp [hg] at h
  · rw [Bool.or_eq_true] at hg
    push_neg at hg
    have h1 : containsSub f.name ".temp." = false := by
      cases hh : containsSub f.name ".temp." with
      | false => rfl
      | true => exact absurd hh hg.1
    have h2 : containsSub f.name ".chunk" = false := by
      cases hh : containsSub f.name ".chunk" with
      | false => rfl
      | true => exact absurd hh hg.2
    refine ⟨?_, h1, h2⟩
    simp only [h1, h2, Bool.or_self, if_false] at h
    cases hm : get_mp3_metadata probe f.name with
    | none => rw [hm] at h; exact absurd h (by simp)
    | some md => rw [hm] at h; cases h; rfl

theorem syncStep_lookup_ne (existing : UrlMap) (createFile : String → Option String)
    (st : SyncState) (f k : String) (h : k ≠ f) :
    dictLookup (syncStep existing createFile st f).drive_urls k
      = dictLookup st.drive_urls k := by
  unfold syncStep
  cases hE : dictLookup existing f with
  | some url => simp [dictLookup_insert_ne _ _ _ _ h]
  | none =>
    by_cases hC : dictContains st.drive_urls f = true
    · simp [hC]
    · simp only [Bool.not_eq_true] at hC
      simp only [hC, Bool.false_eq_true, if_false]
      cases hU : createFile f with
      | some fid => simp [dictLookup_insert_ne _ _ _ _ h]
      | none => simp

theorem syncStep_lookup_self (existing : UrlMap) (createFile : String → Option String)
    (st : SyncState) (f : String) :
    dictLookup (syncStep existing createFile st f).drive_urls f =
      match dictLookup existing f with
      | some url => some url
      | none =>
        if dictContains st.drive_urls f then dictLookup st.drive_urls f
        else (createFile f).map downloadLink := by
  unfold syncStep
  cases hE : dictLookup existing f with
  | some url => simp [dictLookup_insert_self]
  | none =>
    by_cases hC : dictContains st.drive_urls f = true
    · simp [hC]
    · simp only [Bool.not_eq_true] at hC
      simp only [hC, Bool.false_eq_true, if_false]
      cases hU : createFile f with
      | some fid => simp [dictLookup_insert_self]
      | none => simp [dictContains_lookup_none _ _ hC]

theorem syncStep_contains_mono (existing : UrlMap) (createFile : String → Option String)
    (st : SyncState) (f k : String) (h : dictContains st.drive_urls k = true) :
    dictContains (syncStep existing createFile st f).drive_urls k = true := by
  by_cases hk : k = f
  · subst hk
    rw [dictContains, syncStep_lookup_self]
    cases hE : dictLookup existing k with
    | some url => simp
    | none => simp only [h, if_true]; exact h
  · rw [dictContains, syncStep_lookup_ne _ _ _ _ _ hk]
    exact h

theorem syncStep_uploaded_cases (existing : UrlMap) (createFile : String → Option String)
    (st : SyncState) (f : String) :
    (syncStep existing createFile st f).uploaded = st.uploaded ∨
      (syncStep existing createFile st f).uploaded = st.uploaded ++ [f] := by
  unfold syncStep
  cases dictLookup existing f with
  | some url => left; rfl
  | none =>
    by_cases hC : dictContains st.drive_urls f = true
    · left; simp [hC]
    · simp only [Bool.not_eq_true] at hC
      simp only [hC, Bool.false_eq_true, if_false]
      cases createFile f with
      | some fid => right; rfl
      | none => left; rfl

theorem syncStep_uploaded_covered (existing : UrlMap) (createFile : String → Option String)
    (st : SyncState) (f : String)
    (h : dictContains existing f = true ∨ dictContains st.drive_urls f = true) :
    (syncStep existing createFile st f).uploaded = st.uploaded := by
  unfold syncStep
  cases hE : dictLookup existing f with
  | some url => rfl
  | none =>
    have hC : dictContains st.drive_urls f = true := by
      rcases h with h | h
      · rw [dictContains, hE] at h; exact absurd h (by simp)
      · exact h
    simp [hC]

theorem syncRun_lookup_notMem (existing : UrlMap) (createFile : String → Option String) :
    ∀ (files : List String) (st : SyncState) (k : String), k ∉ files →
    dictLookup (syncRun existing createFile st files).drive_urls k
      = dictLookup st.drive_urls k := by
  intro files
  induction files with
  | nil => intro st k _; rfl
  | cons g gs ih =>
    intro st k hk
    rw [List.mem_cons] at hk
    push_neg at hk
    rw [syncRun, List.foldl_cons]
    rw [show List.foldl (syncStep existing createFile) (syncStep existing createFile st g) gs
        = syncRun existing createFile (syncStep existing createFile st g) gs from rfl]
    rw [ih _ _ hk.2, syncStep_lookup_ne _ _ _ _ _ hk.1]

theorem syncRun_contains_mono (existing : UrlMap) (createFile : String → Option String) :
    ∀ (files : List String) (st : SyncState) (k : String),
    dictContains st.drive_urls k = true →
    dictContains (syncRun existing createFile st files).drive_urls k = true := by
  intro files
  induction files with
  | nil => intro st k h; exact h
  | cons g gs ih =>
    intro st k h
    rw [syncRun, List.foldl_cons]
    exact ih _ _ (syncStep_contains_mono _ _ _ _ _ h)

theorem syncRun_lookup_mem (existing : UrlMap) (createFile : String → Option String) :
    ∀ (files : List String) (st : SyncState) (f : String), files.Nodup → f ∈ files →
    dictLookup (syncRun existing createFile st files).drive_urls f =
      match dictLookup existing f with
      | some url => some url
      | none =>
        if dictContains st.drive_urls f then dictLookup st.drive_urls f
        else (createFile f).map downloadLink := by
  intro files
  induction files with
  | nil => intro st f _ hf; exact absurd hf (List.not_mem_nil f)
  | cons g gs ih =>
    intro st f hnd hf
    rw [List.nodup_cons] at hnd
    rw [syncRun, List.foldl_cons]
    rw [show List.foldl (syncStep existing createFile) (syncStep existing createFile st g) gs
        = syncRun existing createFile (syncStep existing createFile st g) gs from rfl]
    rcases List.mem_cons.mp hf with hfg | hfg
    · subst hfg
      rw [syncRun_lookup_notMem _ _ _ _ _ hnd.1, syncStep_lookup_self]
    · have hne : f ≠ g := fun hh => hnd.1 (hh ▸ hfg)
      rw [ih _ _ hnd.2 hfg]
      rw [show dictContains (syncStep existing createFile st g).drive_urls f
          = dictContains st.drive_urls f from by
        rw [dictContains, dictContains, syncStep_lookup_ne _ _ _ _ _ hne]]
      rw [syncStep_lookup_ne _ _ _ _ _ hne]

theorem syncRun_uploaded_covered (existing : UrlMap) (createFile : String → Option String) :
    ∀ (files : List String) (st : SyncState),
    (∀ f ∈ files, dictContains existing f = true ∨ dictContains st.drive_urls f = true) →
    (syncRun existing createFile st files).uploaded = st.uploaded := by
  intro files
  induction files with
  | nil => intro st _; rfl
  | cons g gs ih =>
    intro st h
    rw [syncRun, List.foldl_cons]
    have hg := h g (List.mem_cons_self g gs)
    have hstep := syncStep_uploaded_covered existing createFile st g hg
    rw [show List.foldl (syncStep existing createFile) (syncStep existing createFile st g) gs
        = syncRun existing createFile (syncStep existing createFile st g) gs from rfl]
    rw [ih _ ?_, hstep]
    intro f hf
    rcases h f (List.mem_cons_of_mem g hf) with hc | hc
    · exact Or.inl hc
    · exact Or.inr (syncStep_contains_mono _ _ _ _ _ hc)

theorem mem_uploaded_syncRun (existing : UrlMap) (createFile : String → Option String) :
    ∀ (files : List String) (st : SyncState) (n : String),
    n ∈ (syncRun existing createFile st files).uploaded →
    n ∈ st.uploaded ∨ n ∈ files := by
  intro files
  induction files with
  | nil => intro st n h; exact Or.inl h
  | cons g gs ih =>
    intro st n h
    rw [syncRun, List.foldl_cons] at h
    rcases ih _ _ h with hu | hu
    · rcases syncStep_uploaded_cases existing createFile st g with hc | hc
      · rw [hc] at hu; exact Or.inl hu
      · rw [hc, List.mem_append] at hu
        rcases hu with hu | hu
        · exact Or.inl hu
        · right; rw [List.mem_singleton] at hu; exact hu ▸ List.mem_cons_self g gs
    · exact Or.inr (List.mem_cons_of_mem g hu)

theorem endswithPy_append_self (s t : String) : endswithPy (s ++ t) t = true := by
  unfold endswithPy
  rw [String.data_append]
  simp [List.isSuffixOf_iff_suffix, List.suffix_append]

/-! ### Claim theorems -/

/-- C1 (code bug): the feed builder is claimed to order items by publication
date, descending.  The code sorts by the formatted pub_date STRING
(generate-feed.py line 137), so on two files whose modification times are
epoch 86400 (Friday 02 Jan 1970, the newer) and epoch 0 (Thursday
01 Jan 1970, the older), the older Thursday episode is emitted first,
because the string starting "Thu" compares above the string starting "Fri". -/
theorem c1_sorts_by_string_not_by_date :
    (generate_rss_items (fun _ => some { tags := [], duration := 10, size := 100 }) [] 0
        [{ name := "a.mp3", mtime := 86400 }, { name := "b.mp3", mtime := 0 }]).map
      (fun e => e.filename) = ["b.mp3", "a.mp3"] ∧
    pub_date 0 86400 = "Fri, 02 Jan 1970 00:00:00  +0000" ∧
    pub_date 0 0 = "Thu, 01 Jan 1970 00:00:00  +0000" := by
  decide

/-- C2 counterexample: on a machine whose local timezone is one hour east of
UTC, the publication string for modification instant 0 does not denote that
instant expressed in UTC (its time-of-day fields read 01:00:00). -/
theorem c2_counterexample_local_offset :
    pub_date 3600 0 ≠ utcPubDate 0 := by decide

/-- C2 (amended): the publication timestamp is the file's last-modified time
expressed in the script's LOCAL timezone with ' +0000' appended (the naive
datetime leaves the timezone field empty, so the suffix is always appended,
after a doubled space); it denotes the instant in UTC only when the local
offset is zero. -/
theorem c2_amended_local_time (tzOffset mtime : Nat) :
    pub_date tzOffset mtime = utcPubDate (mtime + tzOffset) ∧
    endswithPy (pub_date tzOffset mtime) " +0000" = true := by
  constructor
  · rw [pub_date_eq]; rfl
  · rw [pub_date_eq]; exact endswithPy_append_self _ _

/-- C3: the URL resolver returns the mapping's value whenever the filename
is a key of the mapping, and otherwise the fixed base path joined with the
filename by a single slash. -/
theorem c3_url_resolution (filename : String) (drive_urls : UrlMap) :
    (∀ url, dictLookup drive_urls filename = some url →
      get_audio_url filename drive_urls = url) ∧
    (dictLookup drive_urls filename = none →
      get_audio_url filename drive_urls = GITHUB_BASE_URL ++ "/" ++ filename) := by
  constructor
  · intro url h; simp [get_audio_url, h]
  · intro h; simp [get_audio_url, h]

/-- C3 witness at concrete inputs, both branches. -/
theorem c3_witness :
    get_audio_url "x.mp3" [("x.mp3", "mapped")] = "mapped" ∧
    get_audio_url "y.mp3" [("x.mp3", "mapped")] = GITHUB_BASE_URL ++ "/" ++ "y.mp3" :=
  ⟨(c3_url_resolution "x.mp3" [("x.mp3", "mapped")]).1 "mapped" (by decide),
   (c3_url_resolution "y.mp3" [("x.mp3", "mapped")]).2 (by decide)⟩

/-- C4: for one non-excluded local file, the three sync branches apply in
precedence order: a remote-listed name records the remote URL (overwriting
any saved value) with no upload; else a cache-mapped name leaves the state
untouched; else, on upload success, the file is uploaded, its id is granted
public read, and its direct-download URL is recorded. -/
theorem c4_sync_branch_precedence (existing : UrlMap) (createFile : String → Option String)
    (st : SyncState) (filename : String) :
    (∀ url, dictLookup existing filename = some url →
      dictLookup (syncStep existing createFile st filename).drive_urls filename = some url ∧
      (syncStep existing createFile st filename).uploaded = st.uploaded ∧
      (syncStep existing createFile st filename).granted = st.granted) ∧
    (dictLookup existing filename = none → dictContains st.drive_urls filename = true →
      syncStep existing createFile st filename = st) ∧
    (dictLookup existing filename = none → dictContains st.drive_urls filename = false →
      ∀ fid, createFile filename = some fid →
        dictLookup (syncStep existing createFile st filename).drive_urls filename
            = some (downloadLink fid) ∧
        (syncStep existing createFile st filename).uploaded = st.uploaded ++ [filename] ∧
        (syncStep existing createFile st filename).granted = st.granted ++ [fid]) := by
  refine ⟨?_, ?_, ?_⟩
  · intro url hE
    simp only [syncStep, hE]
    refine ⟨dictLookup_insert_self _ _ _, trivial, trivial⟩
  · intro hE hC
    simp only [syncStep, hE, hC, if_true]
  · intro hE hC fid hU
    simp only [syncStep, hE, hC, Bool.false_eq_true, if_false, hU]
    refine ⟨dictLookup_insert_self _ _ _, trivial, trivial⟩

/-- C4 witness: one concrete state exercising each of the three branches. -/
theorem c4_witness :
    dictLookup (syncStep [("a.mp3", "ra")] (fun f => if f = "c.mp3" then some "idc" else none)
        { drive_urls := [("a.mp3", "old"), ("b.mp3", "mb")], uploaded := [], granted := [] }
        "a.mp3").drive_urls "a.mp3" = some "ra" ∧
    syncStep [("a.mp3", "ra")] (fun f => if f = "c.mp3" then some "idc" else none)
        { drive_urls := [("a.mp3", "old"), ("b.mp3", "mb")], uploaded := [], granted := [] }
        "b.mp3"
      = { drive_urls := [("a.mp3", "old"), ("b.mp3", "mb")], uploaded := [], granted := [] } ∧
    (syncStep [("a.mp3", "ra")] (fun f => if f = "c.mp3" then some "idc" else none)
        { drive_urls := [("a.mp3", "old"), ("b.mp3", "mb")], uploaded := [], granted := [] }
        "c.mp3").uploaded = ["c.mp3"] :=
  ⟨((c4_sync_branch_precedence _ _ _ "a.mp3").1 "ra" (by decide)).1,
   (c4_sync_branch_precedence _ _ _ "b.mp3").2.1 (by decide) (by decide),
   (((c4_sync_branch_precedence _ _ _ "c.mp3").2.2 (by decide) (by decide) "idc"
      (by decide)).2.1 : _)⟩

/-- C5: with the remote listing and the local files unchanged, a second sync
run after a successful first run uploads nothing and writes a mapping with
exactly the same key-value associations as the first run's mapping. -/
theorem c5_sync_idempotent (existing : UrlMap) (createFile : String → Option String)
    (m0 : UrlMap) (files : List String)
    (hnd : (localFilterNames files).Nodup)
    (hsucc : ∀ f ∈ localFilterNames files, dictLookup existing f = none →
      dictContains m0 f = false → (createFile f).isSome = true) :
    (sync_main existing createFile
        (sync_main existing createFile m0 files).drive_urls files).uploaded = [] ∧
    (∀ k, dictLookup (sync_main existing createFile
        (sync_main existing createFile m0 files).drive_urls files).drive_urls k
      = dictLookup (sync_main existing createFile m0 files).drive_urls k) := by
  unfold sync_main
  have hcov : ∀ f ∈ localFilterNames files, dictContains existing f = true ∨
      dictContains (syncRun existing createFile
        { drive_urls := m0, uploaded := [], granted := [] }
        (localFilterNames files)).drive_urls f = true := by
    intro f hf
    cases hE : dictLookup existing f with
    | some url => left; rw [dictContains, hE]; rfl
    | none =>
      right
      rw [dictContains,
        syncRun_lookup_mem existing createFile (localFilterNames files) _ f hnd hf, hE]
      by_cases hc0 : dictContains m0 f = true
      · simp only [show dictContains
            ({ drive_urls := m0, uploaded := [], granted := [] } : SyncState).drive_urls f
            = true from hc0, if_true]
        exact hc0
      · rw [Bool.not_eq_true] at hc0
        simp only [show dictContains
            ({ drive_urls := m0, uploaded := [], granted := [] } : SyncState).drive_urls f
            = false from hc0, Bool.false_eq_true, if_false]
        rcases Option.isSome_iff_exists.mp (hsucc f hf hE hc0) with ⟨fid, hfid⟩
        rw [hfid]
        rfl
  constructor
  · exact syncRun_uploaded_covered existing createFile (localFilterNames files) _ hcov
  · intro k
    by_cases hk : k ∈ localFilterNames files
    · rw [syncRun_lookup_mem existing createFile (localFilterNames files) _ k hnd hk]
      cases hE : dictLookup existing k with
      | some url =>
        rw [syncRun_lookup_mem existing createFile (localFilterNames files) _ k hnd hk, hE]
      | none =>
        have hcont : dictContains (syncRun existing createFile
            { drive_urls := m0, uploaded := [], granted := [] }
            (localFilterNames files)).drive_urls k = true := by
          rcases hcov k hk with hc | hc
          · rw [dictContains, hE] at hc; exact absurd hc (by simp)
          · exact hc
        simp only [hcont, if_true]
    · exact syncRun_lookup_notMem existing createFile (localFilterNames files) _ k hk

/-- C5 witness: a concrete double run with one remote file, one cached file
and one successful upload. -/
theorem c5_witness :
    (sync_main [("a.mp3", "ra")] (fun f => if f = "c.mp3" then some "idc" else none)
        (sync_main [("a.mp3", "ra")] (fun f => if f = "c.mp3" then some "idc" else none)
          [("b.mp3", "mb")] ["a.mp3", "b.mp3", "c.mp3"]).drive_urls
        ["a.mp3", "b.mp3", "c.mp3"]).uploaded = [] :=
  (c5_sync_idempotent [("a.mp3", "ra")] (fun f => if f = "c.mp3" then some "idc" else none)
    [("b.mp3", "mb")] ["a.mp3", "b.mp3", "c.mp3"] (by decide) (by decide)).1

/-- C6: a name containing the temp or chunk marker never appears among the
generated feed's item filenames and is never uploaded by the sync agent. -/
theorem c6_temp_chunk_excluded (probe : String → Option ProbeFormat) (drive_urls : UrlMap)
    (tzOffset : Nat) (files : List FileInfo) (existing : UrlMap)
    (createFile : String → Option String) (m0 : UrlMap) (localNames : List String)
    (n : String)
    (h : containsSub n ".temp." = true ∨ containsSub n ".chunk" = true) :
    n ∉ (generate_rss_items probe drive_urls tzOffset files).map (fun e => e.filename) ∧
    n ∉ (sync_main existing createFile m0 localNames).uploaded := by
  constructor
  · intro hn
    rw [List.mem_map] at hn
    obtain ⟨e, he, hfe⟩ := hn
    rw [generate_rss_items, mem_sortByKeyDesc, buildEpisodes, List.mem_filterMap] at he
    obtain ⟨f, _, hef⟩ := he
    obtain ⟨hname, h1, h2⟩ := episodeOf_some _ _ _ _ _ hef
    rcases h with h | h
    · rw [← hfe, hname] at h
      rw [h1] at h
      exact absurd h (by simp)
    · rw [← hfe, hname] at h
      rw [h2] at h
      exact absurd h (by simp)
  · intro hn
    rcases mem_uploaded_syncRun existing createFile (localFilterNames localNames) _ n hn with
      hu | hu
    · exact absurd hu (List.not_mem_nil n)
    · rw [localFilterNames, List.mem_filter] at hu
      have hcond := hu.2
      rw [Bool.and_eq_true, Bool.not_eq_true', Bool.not_eq_true'] at hcond
      rcases h with h | h
      · rw [hcond.1] at h; exact absurd h (by simp)
      · rw [hcond.2] at h; exact absurd h (by simp)

/-- C6 witness at a concrete temp-marked name. -/
theorem c6_witness :
    "x.temp.mp3" ∉ ((generate_rss_items (fun _ => some { tags := [], duration := 1, size := 1 })
        [] 0 [{ name := "x.temp.mp3", mtime := 0 }]).map (fun e => e.filename)) ∧
    "x.temp.mp3" ∉ (sync_main [] (fun _ => some "id") [] ["x.temp.mp3"]).uploaded :=
  c6_temp_chunk_excluded _ _ _ _ _ _ _ _ "x.temp.mp3" (Or.inl (by decide))

/-- C7: every key of the loaded mapping is still a key of the mapping the
sync run saves; entries are only added or overwritten, never removed. -/
theorem c7_mapping_never_pruned (existing : UrlMap) (createFile : String → Option String)
    (m0 : UrlMap) (files : List String) (k : String)
    (h : dictContains m0 k = true) :
    dictContains (sync_main existing createFile m0 files).drive_urls k = true := by
  unfold sync_main
  exact syncRun_contains_mono existing createFile (localFilterNames files) _ k h

/-- C7 witness: a pre-existing key survives a run that sees no local file. -/
theorem c7_witness :
    dictContains (sync_main [] (fun _ => none) [("a.mp3", "u")] []).drive_urls "a.mp3"
      = true :=
  c7_mapping_never_pruned [] (fun _ => none) [("a.mp3", "u")] [] "a.mp3" (by decide)

/-- C8: when the metadata probe fails for a file, the extractor returns none
instead of raising, that file contributes no episode, and the feed over the
remaining files is unchanged. -/
theorem c8_probe_failure_skips_file (probe : String → Option ProbeFormat)
    (drive_urls : UrlMap) (tzOffset : Nat) (xs ys : List FileInfo) (f : FileInfo)
    (h : probe f.name = none) :
    get_mp3_metadata probe f.name = none ∧
    generate_rss_items probe drive_urls tzOffset (xs ++ f :: ys)
      = generate_rss_items probe drive_urls tzOffset (xs ++ ys) := by
  have hmd : get_mp3_metadata probe f.name = none := by rw [get_mp3_metadata, h]
  refine ⟨hmd, ?_⟩
  have hep : episodeOf probe drive_urls tzOffset f = none := by
    unfold episodeOf
    by_cases hg : (containsSub f.name ".temp." || containsSub f.name ".chunk") = true
    · simp [hg]
    · rw [Bool.not_eq_true] at hg
      simp only [hg, Bool.false_eq_true, if_false]
      rw [hmd]
  unfold generate_rss_items buildEpisodes
  rw [List.filterMap_append, List.filterMap_append, List.filterMap_cons_none hep]

/-- C8 witness: a failing probe on one file leaves the empty feed. -/
theorem c8_witness :
    get_mp3_metadata (fun _ => none) "a.mp3" = none ∧
    generate_rss_items (fun _ => none) [] 0 ([] ++ { name := "a.mp3", mtime := 0 } :: [])
      = generate_rss_items (fun _ => none) [] 0 ([] ++ []) :=
  c8_probe_failure_skips_file (fun _ => none) [] 0 [] [] { name := "a.mp3", mtime := 0 } rfl

/-- C9: the itunes duration element is emitted exactly when the duration is
positive, rendered as zero-padded HH:MM:SS; 3725 seconds render as
"01:02:05" and 0 renders no element. -/
theorem c9_duration_element :
    (∀ d : Nat, (durationElement d).isSome = true ↔ 0 < d) ∧
    durationElement 3725 = some "01:02:05" ∧
    durationElement 0 = none := by
  refine ⟨fun d => ?_, by decide, by decide⟩
  unfold durationElement
  by_cases h : 0 < d
  · simp [h]
  · simp [h]

/-- C9 witness at a concrete positive duration. -/
theorem c9_witness : (durationElement 5).isSome = true :=
  (c9_duration_element.1 5).mpr (by decide)

/-- C10: for positive durations the rendered components are the euclidean
hour/minute/second decomposition (minutes and seconds below 60, lossless),
the hour field is padded to at least two characters, and from 360000
seconds on it has three or more characters (never truncated). -/
theorem c10_duration_components (d : Nat) (h : 0 < d) :
    durationElement d
        = some (pad2 (d / 3600) ++ ":" ++ pad2 (d % 3600 / 60) ++ ":" ++ pad2 (d % 60)) ∧
    d % 3600 / 60 < 60 ∧ d % 60 < 60 ∧
    (d / 3600) * 3600 + (d % 3600 / 60) * 60 + d % 60 = d ∧
    2 ≤ (pad2 (d / 3600)).length ∧
    (360000 ≤ d → 3 ≤ (pad2 (d / 3600)).length) := by
  refine ⟨by simp [durationElement, duration_str, h], by omega, by omega, by omega,
    pad2_length_two _, fun hd => pad2_length_three _ ?_⟩
  omega

/-- C10 witness at 360000 seconds, where the hour field has three digits. -/
theorem c10_witness :
    durationElement 360000
        = some (pad2 (360000 / 3600) ++ ":" ++ pad2 (360000 % 3600 / 60) ++ ":"
            ++ pad2 (360000 % 60)) ∧
    3 ≤ (pad2 (360000 / 3600)).length :=
  ⟨(c10_duration_components 360000 (by decide)).1,
   (c10_duration_components 360000 (by decide)).2.2.2.2.2 (by decide)⟩

end StrategyFeed
